import Mathlib

/-!
# Verification of the `interpreto` attribution core

Shallow embedding, in Lean 4, of the parts of the `interpreto` repository that
the verified properties talk about:

* `src/interpreto/commons/generator_tools.py`
  (`PersistentTupleGeneratorWrapper`, `SubGenerator`): a lazy fan-out of a
  source of pairs into independently consumable cursors backed by one shared
  append-only buffer;
* `src/interpreto/attributions/perturbations/occlusion.py`
  (`TokenOcclusionPerturbator.perturb`);
* `src/interpreto/attributions/perturbations/linear_interpolation_perturbation.py`
  (`LinearInterpolationPerturbation.adjust_baseline` / `.perturb`);
* `src/interpreto/commons/model_wrapping/classification_inference_wrapper.py`
  (`ClassificationInferenceWrapper._process_target`,
  `_get_targeted_logits_from_iterable`);
* `src/interpreto/attributions/base.py`
  (`MultitaskExplainerMixin.__new__`,
  `ClassificationAttributionExplainer.process_inputs_to_explain_and_targets`);
* `src/interpreto/attributions/methods/sobol_attribution.py`
  (`SobolAttribution.__init__`, `[REPLACE]`-token registration).

Machine floats are modelled as exact rationals (`ℚ`); tensors as a shape plus
flat row-major data; Python exceptions as an `Except` error enumeration.
-/

namespace Interpreto

/-- Python exceptions that the embedded code can raise.  `valueErrorShape` and
`valueErrorDtype` are both a Python `ValueError`; the constructors record which
check fired (the baseline-shape check or the baseline-dtype check). -/
inductive PyErr where
  | stopIteration
  | indexError
  | typeError
  | valueError
  | valueErrorShape
  | valueErrorDtype
  | notImplementedError
  | runtimeError
  | assertionError
deriving DecidableEq, Repr

/-! ## Python sequence indexing and slicing

`SubGenerator.__next__` evaluates `buffer[self.index][self.position]` where
`position` is an `int` or a `slice`; we embed the relevant Python semantics of
tuple indexing and slicing (CPython `PySlice_AdjustIndices`). -/

/-- Python indexing `l[i]` on a sequence: negative indices count from the end,
out-of-range indices raise `IndexError` (here: `none`). -/
def pyIndex {γ : Type*} (l : List γ) (i : Int) : Option γ :=
  let j : Int := if i < 0 then i + l.length else i
  if 0 ≤ j ∧ j < (l.length : Int) then l.get? j.toNat else none

/-- The list of indices selected by a Python slice `start:stop:step` on a
sequence of length `len` (CPython `PySlice_AdjustIndices`, `step ≠ 0`). -/
def pySliceIdx (len : Nat) (start stop : Option Int) (step : Int) : List Nat :=
  if step = 0 then []
  else if 0 < step then
    let norm : Int → Int := fun v => if v < 0 then v + len else v
    let a : Nat := ((max 0 (min (norm (start.getD 0)) len))).toNat
    let b : Nat := ((max 0 (min (norm (stop.getD len)) len))).toNat
    let st : Nat := step.toNat
    if a < b then (List.range ((b - a - 1) / st + 1)).map (fun k => a + k * st) else []
  else
    let norm : Int → Int := fun v => if v < 0 then v + len else v
    -- start defaults to len-1; stop defaults to the sentinel "one before 0"
    let a : Int := max (-1) (min (norm (start.getD (len - 1))) (len - 1))
    let b : Int := match stop with
      | some v => max (-1) (min (norm v) ((len : Int) - 1))
      | none => -1
    let st : Nat := (-step).toNat
    if b < a then
      (List.range ((a.toNat - (b + 1).toNat) / st + 1)).map (fun k => a.toNat - k * st)
    else []

/-- Python slicing `l[start:stop:step]` on a sequence (`step ≠ 0`). -/
def pySlice {γ : Type*} (l : List γ) (start stop : Option Int) (step : Int) : List γ :=
  (pySliceIdx l.length start stop step).filterMap (fun k => l.get? k)

/-! ## `generator_tools.py`: the persistent tuple-generator fan-out

The Python classes:

```python
class SubGenerator(Iterator):
    def __init__(self, main_generator, position:int|slice): ...
    def __next__(self):
        if self.index >= len(self.main_generator.buffer):
            self.main_generator.complete_buffer()
        res = self.main_generator.buffer[self.index][self.position]
        self.index += 1
        return res

class PersistentTupleGeneratorWrapper(Iterator):
    def complete_buffer(self):
        self.buffer.append(next(self.generator))
    def get_subgenerator(self, index:int|slice):
        return SubGenerator(self, index)
```

The finite underlying generator is modelled as a list `source` together with a
position `srcPos` counting how many times `next(self.generator)` succeeded. -/

/-- A produced pair, viewed as the Python 2-tuple `(a, b)`, i.e. the
2-element sequence whose item `0` is the first component and item `1` the
second. -/
def pairToList {α β : Type*} (p : α × β) : List (α ⊕ β) := [Sum.inl p.1, Sum.inr p.2]

/-- The `position` argument of `SubGenerator`: a Python `int` or `slice`. -/
inductive Position where
  | idx (i : Int)
  | slice (start stop : Option Int) (step : Int)

/-- A value yielded by a `SubGenerator`: indexing a tuple yields an item,
slicing a tuple yields a sub-tuple. -/
inductive PyVal (α β : Type*) where
  | item (x : α ⊕ β)
  | tup (l : List (α ⊕ β))
deriving DecidableEq

/-- `buffer[index][position]`'s inner access: index or slice a produced pair. -/
def tupleGet {α β : Type*} (p : α × β) : Position → Except PyErr (PyVal α β)
  | .idx i =>
      match pyIndex (pairToList p) i with
      | some x => .ok (.item x)
      | none => .error .indexError
  | .slice start stop step =>
      if step = 0 then .error .valueError
      else .ok (.tup (pySlice (pairToList p) start stop step))

/-- The state of a `PersistentTupleGeneratorWrapper` over a finite `source`:
how far the source has been drained, and the shared append-only buffer. -/
structure FanState (α β : Type*) where
  srcPos : Nat
  buffer : List (α × β)
deriving DecidableEq

/-- `PersistentTupleGeneratorWrapper.complete_buffer`: advance the source once
and append the produced pair; `none` models the `StopIteration` raised by
`next` on an exhausted source. -/
def completeBuffer {α β : Type*} (source : List (α × β)) (s : FanState α β) :
    Option (FanState α β) :=
  match source.get? s.srcPos with
  | some p => some ⟨s.srcPos + 1, s.buffer ++ [p]⟩
  | none => none

/-- `SubGenerator.__next__` for a cursor holding read index `index` and tuple
position `pos`: complete the buffer if the index is past its end, then read
`buffer[index][pos]` and advance the read index. -/
def subNext {α β : Type*} (source : List (α × β)) (pos : Position)
    (s : FanState α β) (index : Nat) :
    Except PyErr (PyVal α β × FanState α β × Nat) := do
  let s' ← if s.buffer.length ≤ index then
      match completeBuffer source s with
      | some s' => Except.ok s'
      | none => Except.error PyErr.stopIteration
    else Except.ok s
  match s'.buffer.get? index with
  | some p => do
      let v ← tupleGet p pos
      Except.ok (v, s', index + 1)
  | none => Except.error PyErr.indexError

/-- One of the two cursors obtained from `get_subgenerator`. -/
inductive Side where
  | A
  | B
deriving DecidableEq, Repr

/-- Two cursors (`SubGenerator`s) sharing one wrapper state: the shared
`FanState` plus each cursor's private read index. -/
structure TwoCursors (α β : Type*) where
  fs : FanState α β
  iA : Nat
  iB : Nat
deriving DecidableEq

/-- Run an interleaving `sched` of `__next__` calls on cursor `A` (tuple
position `pA`) and cursor `B` (tuple position `pB`), collecting the values each
cursor yields; any raised exception aborts the whole run. -/
def runSchedule {α β : Type*} (source : List (α × β)) (pA pB : Position) :
    TwoCursors α β → List Side →
    Except PyErr (List (PyVal α β) × List (PyVal α β) × TwoCursors α β)
  | st, [] => .ok ([], [], st)
  | st, .A :: rest => do
      let (v, fs', i') ← subNext source pA st.fs st.iA
      let (oa, ob, stf) ← runSchedule source pA pB ⟨fs', i', st.iB⟩ rest
      Except.ok (v :: oa, ob, stf)
  | st, .B :: rest => do
      let (v, fs', i') ← subNext source pB st.fs st.iB
      let (oa, ob, stf) ← runSchedule source pA pB ⟨fs', st.iA, i'⟩ rest
      Except.ok (oa, v :: ob, stf)

/-- The freshly constructed wrapper with two fresh cursors: nothing produced,
empty buffer, both read indices at `0`. -/
def initCursors {α β : Type*} : TwoCursors α β := ⟨⟨0, []⟩, 0, 0⟩

/-- Reduction of `Except`'s bind on a success value. -/
theorem exceptBind_ok {ε : Type u} {γ δ : Type v} (x : γ) (f : γ → Except ε δ) :
    (Except.ok (ε := ε) x >>= f) = f x := rfl

/-- One `__next__` call on a cursor at read index `a`, with the shared state in
its invariant form (`srcPos = m`, buffer = first `m` produced pairs): it
succeeds, yields the `a`-th pair's view, and advances the source only when the
buffer did not already cover index `a`. -/
lemma subNext_take {α β : Type*} (source : List (α × β)) (pos : Position)
    (f : α × β → PyVal α β)
    (hpos : ∀ p ∈ source, tupleGet p pos = .ok (f p))
    (a m : Nat) (ham : a ≤ m) (hmn : m ≤ source.length) (han : a < source.length) :
    subNext source pos ⟨m, source.take m⟩ a =
      .ok (f source[a], ⟨max (a + 1) m, source.take (max (a + 1) m)⟩, a + 1) := by
  have hbl : (source.take m).length = m := by
    rw [List.length_take]; omega
  have hget : source.get? a = some source[a] := by
    rw [List.get?_eq_getElem?, List.getElem?_eq_getElem han]
  have htg := hpos _ (List.getElem_mem han)
  by_cases hc : m ≤ a
  · have hma : m = a := le_antisymm hc ham
    subst hma
    have hmax : max (m + 1) m = m + 1 := by omega
    have htake : source.take m ++ [source[m]] = source.take (m + 1) := by
      rw [List.take_succ, List.getElem?_eq_getElem han, Option.toList_some]
    have hbg : (source.take (m + 1)).get? m = some source[m] := by
      rw [List.get?_eq_getElem?, List.getElem?_take, if_pos (Nat.lt_succ_self m),
        List.getElem?_eq_getElem han]
    simp only [subNext, hbl, le_refl, if_true, completeBuffer, hget, htake, hmax,
      exceptBind_ok, hbg, htg]
  · push_neg at hc
    have hmax : max (a + 1) m = m := by omega
    have hbg : (source.take m).get? a = some source[a] := by
      rw [List.get?_eq_getElem?, List.getElem?_take, if_pos hc, List.getElem?_eq_getElem han]
    simp only [subNext, hbl, if_neg (by omega : ¬ m ≤ a), exceptBind_ok, hbg, htg, hmax]

/-- Core invariant of the fan-out: running any interleaving of cursor steps
from the invariant state yields, on each cursor, the views of the next pairs in
source order, and leaves the source advanced to exactly
`max` of the two final read indices — i.e. the producer is advanced exactly
once per buffer index and never re-invoked for an index already produced. -/
lemma runSchedule_spec {α β : Type*} (source : List (α × β)) (pA pB : Position)
    (fA fB : α × β → PyVal α β)
    (hA : ∀ p ∈ source, tupleGet p pA = .ok (fA p))
    (hB : ∀ p ∈ source, tupleGet p pB = .ok (fB p)) :
    ∀ (sched : List Side) (a b : Nat),
      a + sched.count .A ≤ source.length →
      b + sched.count .B ≤ source.length →
      runSchedule source pA pB ⟨⟨max a b, source.take (max a b)⟩, a, b⟩ sched =
        .ok (((source.drop a).take (sched.count .A)).map fA,
             ((source.drop b).take (sched.count .B)).map fB,
             ⟨⟨max (a + sched.count .A) (b + sched.count .B),
               source.take (max (a + sched.count .A) (b + sched.count .B))⟩,
              a + sched.count .A, b + sched.count .B⟩) := by
  intro sched
  induction sched with
  | nil =>
      intro a b _ _
      simp [runSchedule]
  | cons side rest ih =>
      intro a b hca hcb
      cases side with
      | A =>
          rw [List.count_cons_self] at hca ⊢
          rw [List.count_cons_of_ne (by decide : Side.B ≠ Side.A)] at hcb ⊢
          have han : a < source.length := by omega
          have hstep := subNext_take source pA fA hA a (max a b) (Nat.le_max_left a b)
            (by omega) han
          have hmax : max (a + 1) (max a b) = max (a + 1) b := by omega
          rw [hmax] at hstep
          have hrest := ih (a + 1) b (by omega) (by omega)
          simp only [runSchedule, hstep, exceptBind_ok, hrest]
          rw [List.drop_eq_getElem_cons han, List.take_succ_cons, List.map_cons,
            show a + 1 + rest.count Side.A = a + (rest.count Side.A + 1) by omega]
      | B =>
          rw [List.count_cons_self] at hcb ⊢
          rw [List.count_cons_of_ne (by decide : Side.A ≠ Side.B)] at hca ⊢
          have hbn : b < source.length := by omega
          have hstep := subNext_take source pB fB hB b (max a b) (Nat.le_max_right a b)
            (by omega) hbn
          have hmax : max (b + 1) (max a b) = max a (b + 1) := by omega
          rw [hmax] at hstep
          have hrest := ih a (b + 1) (by omega) (by omega)
          simp only [runSchedule, hstep, exceptBind_ok, hrest]
          rw [List.drop_eq_getElem_cons hbn, List.take_succ_cons, List.map_cons,
            show b + 1 + rest.count Side.B = b + (rest.count Side.B + 1) by omega]

/-- `get_subgenerator(0)`: indexing a produced pair at `0` yields its first
component. -/
lemma tupleGet_idx_zero {α β : Type*} (p : α × β) :
    tupleGet p (.idx 0) = .ok (.item (.inl p.1)) := rfl

/-- `get_subgenerator(1)`: indexing a produced pair at `1` yields its second
component. -/
lemma tupleGet_idx_one {α β : Type*} (p : α × β) :
    tupleGet p (.idx 1) = .ok (.item (.inr p.2)) := rfl

/-- **C2.** For every finite source of `n` pairs wrapped in
`PersistentTupleGeneratorWrapper`, any interleaving that fully drains the
cursor over first components (`get_subgenerator(0)`) and the cursor over
second components (`get_subgenerator(1)`) succeeds, yields on cursor A exactly
the `n` first components and on cursor B exactly the `n` second components in
source order, and leaves the source successfully advanced exactly `n` times
(`srcPos = n`), each advance filling one fresh buffer index
(`buffer = source`) — so no index is ever produced twice. -/
theorem fanout_interleaved_drain {α β : Type*} (source : List (α × β))
    (sched : List Side)
    (hA : sched.count Side.A = source.length)
    (hB : sched.count Side.B = source.length) :
    runSchedule source (.idx 0) (.idx 1) initCursors sched =
      .ok (source.map (fun p => PyVal.item (Sum.inl p.1)),
           source.map (fun p => PyVal.item (Sum.inr p.2)),
           ⟨⟨source.length, source⟩, source.length, source.length⟩) := by
  have h := runSchedule_spec source (.idx 0) (.idx 1)
    (fun p => PyVal.item (Sum.inl p.1)) (fun p => PyVal.item (Sum.inr p.2))
    (fun p _ => tupleGet_idx_zero p) (fun p _ => tupleGet_idx_one p)
    sched 0 0 (by omega) (by omega)
  simpa [initCursors, hA, hB, List.take_length] using h

/-- Witness for C2 on a concrete two-pair source and interleaving `ABBA`. -/
theorem fanout_interleaved_drain_witness :
    runSchedule [((1 : ℕ), (10 : ℕ)), (2, 20)] (.idx 0) (.idx 1) initCursors
      [Side.A, Side.B, Side.B, Side.A] =
      .ok ([PyVal.item (Sum.inl 1), PyVal.item (Sum.inl 2)],
           [PyVal.item (Sum.inr 10), PyVal.item (Sum.inr 20)],
           ⟨⟨2, [(1, 10), (2, 20)]⟩, 2, 2⟩) :=
  fanout_interleaved_drain [(1, 10), (2, 20)] [Side.A, Side.B, Side.B, Side.A]
    (by decide) (by decide)

/-- Definition following the claim's words, for comparison with the code: a
"cursor over a contiguous sub-range of the produced sequence" for a slice
selects, among the pairs the wrapper produces, exactly those whose buffer
index lies in the slice's offset/strided index range. -/
def sliceCursorSpec {α β : Type*} (source : List (α × β))
    (start stop : Option Int) (step : Int) : List (α × β) :=
  pySlice source start stop step

/-- **C3 (counterexample).** On the source `[(0, 10), (1, 11)]`, the cursor
returned by `get_subgenerator(slice(1, None))` yields **two** values — for
every produced pair, the slice of that pair (its second component as a
1-tuple) — whereas a cursor over the contiguous sub-range `1:` of the produced
sequence would yield the **one** pair `(1, 11)`.  The code's cursor therefore
is not a cursor over a sub-range of the produced sequence: the slice indexes
into each produced tuple, not into the buffer. -/
theorem subgenerator_slice_counterexample :
    runSchedule [((0 : ℕ), (10 : ℕ)), (1, 11)] (.slice (some 1) none 1) (.idx 0)
        initCursors [Side.A, Side.A] =
      .ok ([PyVal.tup [Sum.inr 10], PyVal.tup [Sum.inr 11]], [],
           ⟨⟨2, [(0, 10), (1, 11)]⟩, 2, 0⟩) ∧
    sliceCursorSpec [((0 : ℕ), (10 : ℕ)), (1, 11)] (some 1) none 1 = [(1, 11)] ∧
    ¬ ([PyVal.tup (α := ℕ) (β := ℕ) [Sum.inr 10], PyVal.tup [Sum.inr 11]].length =
        (sliceCursorSpec [((0 : ℕ), (10 : ℕ)), (1, 11)] (some 1) none 1).length) :=
  ⟨rfl, rfl, by decide⟩

/-- **C3 (amended).** For every wrapped pair source, `get_subgenerator` called
with a slice returns a cursor that yields one value per produced pair — the
`i`-th value being the slice applied to the `i`-th produced tuple — rather
than a cursor over a contiguous sub-range of the produced sequence. -/
theorem subgenerator_slice_amended {α β : Type*} (source : List (α × β))
    (start stop : Option Int) (step : Int) (hstep : step ≠ 0) :
    runSchedule source (.slice start stop step) (.idx 0) initCursors
      (List.replicate source.length Side.A) =
      .ok (source.map (fun p => PyVal.tup (pySlice (pairToList p) start stop step)),
           [], ⟨⟨source.length, source⟩, source.length, 0⟩) := by
  have hA : ∀ p ∈ source, tupleGet p (.slice start stop step) =
      .ok (.tup (pySlice (pairToList p) start stop step)) := by
    intro p _
    simp [tupleGet, hstep]
  have h := runSchedule_spec source (.slice start stop step) (.idx 0)
    (fun p => PyVal.tup (pySlice (pairToList p) start stop step))
    (fun p => PyVal.item (Sum.inl p.1))
    hA (fun p _ => tupleGet_idx_zero p)
    (List.replicate source.length Side.A) 0 0 ?_ ?_
  · simpa [initCursors, List.count_replicate_self, List.count_replicate,
      List.take_length] using h
  · simp [List.count_replicate_self]
  · simp [List.count_replicate]

/-- Witness for the amended C3: slicing with `slice(1, None)` on a concrete
two-pair source yields the per-pair sub-tuples. -/
theorem subgenerator_slice_amended_witness :
    runSchedule [((5 : ℕ), (6 : ℕ)), (7, 8)] (.slice (some 1) none 1) (.idx 0)
        initCursors [Side.A, Side.A] =
      .ok ([PyVal.tup [Sum.inr 6], PyVal.tup [Sum.inr 8]], [],
           ⟨⟨2, [(5, 6), (7, 8)]⟩, 2, 0⟩) :=
  subgenerator_slice_amended [(5, 6), (7, 8)] (some 1) none 1 (by decide)

/-! ## `occlusion.py`: `TokenOcclusionPerturbator.perturb` (str input)

```python
tokens = self.tokenizer.tokenize(inputs)
n_perturbations = len(tokens)
variations = [
    self.tokenizer.convert_tokens_to_ids(tokens[:i] + [self.mask_value] + tokens[i + 1:])
    for i in range(n_perturbations)
]
embeddings = torch.stack(
    [self.inputs_embeddings(torch.tensor(variation)) for variation in variations]
).unsqueeze(0)
return embeddings, torch.eye(n_perturbations)
```

The tokenizer (`tokenize`, `convert_tokens_to_ids`) and the embedding lookup
(`inputs_embeddings`) are external collaborators and are passed in as opaque
functions; the `unsqueeze(0)` only adds a leading batch axis of size 1 and is
irrelevant to the variant count and mask, so the stacked embeddings are kept
as the list of per-variant rows. -/

/-- `torch.eye n` as a rational matrix (list of rows). -/
def eyeMatrix (n : Nat) : List (List ℚ) :=
  (List.range n).map (fun i => (List.range n).map (fun j => if i = j then 1 else 0))

/-- Result of `TokenOcclusionPerturbator.perturb` on a sentence: the stacked
per-variant embedding rows and the mask. -/
structure OcclusionResult (E : Type*) where
  embeddings : List (List E)
  mask : List (List ℚ)

/-- `TokenOcclusionPerturbator.perturb` registered for `str`. -/
def tokenOcclusionPerturb {τ E : Type*} (tokenize : String → List τ) (maskValue : τ)
    (convertTokensToIds : List τ → List Nat) (inputsEmbeddings : List Nat → List E)
    (inputs : String) : OcclusionResult E :=
  let tokens := tokenize inputs
  let nPerturbations := tokens.length
  let variations := (List.range nPerturbations).map
    (fun i => convertTokensToIds (tokens.take i ++ [maskValue] ++ tokens.drop (i + 1)))
  ⟨variations.map inputsEmbeddings, eyeMatrix nPerturbations⟩

/-- **C1 (code bug).** On an input tokenizing to `l = 2` tokens, the source's
`TokenOcclusionPerturbator.perturb` produces only `l = 2` variants — each with
one token replaced by the mask token, and **no** unperturbed variant — with
mask equal to the bare `2×2` identity, not the claimed `3`-row matrix of a
zero row stacked above the identity (the shape the repository's own
`test_occlusion_masks` asserts for its occlusion perturbator). -/
theorem tokenOcclusion_missing_unperturbed_variant :
    (tokenOcclusionPerturb (fun _ => [0, 1]) 99 id id "a b").embeddings.length = 2 ∧
    (tokenOcclusionPerturb (fun _ => [0, 1]) 99 id id "a b").embeddings =
      [[99, 1], [0, 99]] ∧
    (tokenOcclusionPerturb (fun _ => [0, 1]) 99 id id "a b").mask =
      [[1, 0], [0, 1]] ∧
    (tokenOcclusionPerturb (fun _ => [0, 1]) 99 id id "a b").mask ≠
      [0, 0] :: eyeMatrix 2 ∧
    (2 : Nat) ≠ 2 + 1 := by
  refine ⟨rfl, rfl, by decide, ?_, by omega⟩
  intro h
  have := congrArg List.length h
  simp [tokenOcclusionPerturb, eyeMatrix] at this

/-! ## `classification_inference_wrapper.py`

Tensors are modelled as a shape together with flat row-major data; the target
tensors hold integer class indices (`ITensor`), the logits hold floats,
modelled as exact rationals (`QTensor`). -/

/-- An integer tensor (e.g. a target-index tensor). -/
structure ITensor where
  shape : List Nat
  data : List Nat
deriving DecidableEq, Repr

/-- A floating-point tensor, floats modelled as exact rationals. -/
structure QTensor where
  shape : List Nat
  data : List ℚ
deriving DecidableEq, Repr

/-- `target.expand(index_shape)` for a 1-D `target`, where
`index_shape = list(logits.shape); index_shape[-1] = target.shape[0]`: the
1-D row is broadcast (replicated) across all leading dimensions of the
logits. -/
def expandTargetRow (target : ITensor) (logitsShape : List Nat) : ITensor :=
  ⟨logitsShape.dropLast ++ [target.shape.headD 0],
   (List.replicate logitsShape.dropLast.prod target.data).flatten⟩

/-- `ClassificationInferenceWrapper._process_target`:

```python
match target.dim():
    case 0:
        return self._process_target(target.unsqueeze(0), logits)
    case 1:  # (t)
        index_shape = list(logits.shape)
        index_shape[-1] = target.shape[0]
        return target.expand(index_shape)
    case 2:  # (n, t)
        if target.shape[0] == 1:
            return target.expand(logits.shape[0], -1)
        return target
raise ValueError(...)
```
-/
def processTarget (target : ITensor) (logits : QTensor) : Except PyErr ITensor :=
  match target.shape with
  | [] =>
      -- dim 0: unsqueeze(0) to shape (1) and reprocess; this lands in the
      -- dim-1 branch below
      .ok (expandTargetRow ⟨[1], target.data⟩ logits.shape)
  | [_] => .ok (expandTargetRow target logits.shape)
  | [n, t] =>
      if n = 1 then
        .ok ⟨[logits.shape.headD 0, t],
             (List.replicate (logits.shape.headD 0) target.data).flatten⟩
      else .ok target
  | _ => .error .valueError

/-- **C4 (counterexample).** A 2-D target with leading dimension `2` against a
batch of `3` logits rows — a leading-dimension mismatch — is returned
unchanged by `_process_target`; it does **not** fail with a dimensionality
error as the claim states (the `ValueError` fires only for targets of more
than 2 dimensions). -/
theorem processTarget_mismatch_counterexample :
    processTarget ⟨[2, 1], [3, 4]⟩ ⟨[3, 5], List.replicate 15 0⟩ =
      .ok ⟨[2, 1], [3, 4]⟩ := rfl

/-- **C4 (amended).** `_process_target` promotes a 0-D target to 1-D, repeats
a 1-D target of length `t` across the batch dimension, repeats a 2-D target
with leading dimension 1 across the batch, returns every other 2-D target
unchanged (even when its leading dimension mismatches the batch), and fails
with a dimensionality error exactly when the target has 3 or more
dimensions. -/
theorem processTarget_amended (target : ITensor) (logits : QTensor) (n c : Nat)
    (hl : logits.shape = [n, c]) :
    (target.shape = [] →
      processTarget target logits = processTarget ⟨[1], target.data⟩ logits) ∧
    (∀ t, target.shape = [t] →
      processTarget target logits =
        .ok ⟨[n, t], (List.replicate n target.data).flatten⟩) ∧
    (∀ t, target.shape = [1, t] →
      processTarget target logits =
        .ok ⟨[n, t], (List.replicate n target.data).flatten⟩) ∧
    (∀ m t, target.shape = [m, t] → m ≠ 1 →
      processTarget target logits = .ok target) ∧
    (3 ≤ target.shape.length →
      processTarget target logits = .error .valueError) := by
  obtain ⟨tsh, tdata⟩ := target
  refine ⟨?_, ?_, ?_, ?_, ?_⟩
  · rintro rfl
    simp [processTarget, expandTargetRow, hl]
  · rintro t rfl
    simp [processTarget, expandTargetRow, hl]
  · rintro t rfl
    simp [processTarget, hl]
  · rintro m t rfl hm
    simp [processTarget, if_neg hm]
  · intro hlen
    match tsh with
    | a :: b :: d :: rest => simp [processTarget]
    | [] => simp at hlen
    | [_] => simp at hlen
    | [_, _] => simp at hlen

/-- Witness for the amended C4: a 1-D target of length 2 is repeated across a
batch of 3, and a mismatched 2-D target (leading dimension 4 against batch 3)
passes through unchanged without an error. -/
theorem processTarget_amended_witness :
    processTarget ⟨[2], [5, 7]⟩ ⟨[3, 9], List.replicate 27 0⟩ =
      .ok ⟨[3, 2], [5, 7, 5, 7, 5, 7]⟩ ∧
    processTarget ⟨[4, 1], [0, 1, 2, 3]⟩ ⟨[3, 9], List.replicate 27 0⟩ =
      .ok ⟨[4, 1], [0, 1, 2, 3]⟩ := by
  constructor
  · exact (processTarget_amended ⟨[2], [5, 7]⟩ ⟨[3, 9], List.replicate 27 0⟩ 3 9
      rfl).2.1 2 rfl
  · exact (processTarget_amended ⟨[4, 1], [0, 1, 2, 3]⟩ ⟨[3, 9], List.replicate 27 0⟩
      3 9 rfl).2.2.2.1 4 1 rfl (by decide)

/-! ### `_get_targeted_logits_from_iterable`

```python
predictions = self._get_logits_from_iterable(iter(model_inputs))
if targets.dim() in (0, 1):
    targets = targets.view(1, -1)
single_index = int(targets.shape[0] > 1)
for index, logits in enumerate_generator(predictions):
    yield logits.gather(-1, targets[single_index and index].unsqueeze(0).expand(logits.shape[0], -1))
```

`_get_logits_from_iterable` lives in the base `InferenceWrapper` (the model
forward); the per-input logits tensors it yields are taken as the input list
here. -/

/-- One loop iteration: gather, from the `index`-th input's logits, the
entries at the selected target row's indices along the last axis, expanded
across that input's batch dimension.  `targets[row]` out of range raises
`IndexError`; a gathered index beyond the class axis raises a runtime
error. -/
def gatherTargetedOne (t2 : ITensor) (index : Nat) (logits : QTensor) :
    Except PyErr QTensor :=
  let rows := t2.shape.headD 0
  let rowLen := t2.shape.getD 1 0
  -- Python `single_index and index`, with `single_index = int(targets.shape[0] > 1)`
  let r : Nat := if 1 < rows then index else 0
  if r < rows then
    let row := (t2.data.drop (r * rowLen)).take rowLen
    let b := logits.shape.headD 0
    let c := logits.shape.getD 1 0
    if row.all (· < c) then
      .ok ⟨[b, rowLen],
        (List.range (b * rowLen)).map
          (fun idx => logits.data.getD ((idx / rowLen) * c + row.getD (idx % rowLen) 0) 0)⟩
    else .error .runtimeError
  else .error .indexError

/-- The `for index, logits in enumerate_generator(predictions)` loop. -/
def gatherTargetedLoop (t2 : ITensor) : Nat → List QTensor → Except PyErr (List QTensor)
  | _, [] => .ok []
  | i, lg :: rest => do
      let v ← gatherTargetedOne t2 i lg
      let vs ← gatherTargetedLoop t2 (i + 1) rest
      Except.ok (v :: vs)

/-- `ClassificationInferenceWrapper._get_targeted_logits_from_iterable`,
applied to the list of per-input logits tensors. -/
def getTargetedLogitsFromIterable (logitsList : List QTensor) (targets : ITensor) :
    Except PyErr (List QTensor) :=
  let t2 : ITensor :=
    if targets.shape.length ≤ 1 then ⟨[1, targets.data.length], targets.data⟩ else targets
  gatherTargetedLoop t2 0 logitsList

/-- Number of rows of the target tensor once viewed as 2-D
(`targets.view(1, -1)` for 0-D/1-D targets). -/
def viewedRows (targets : ITensor) : Nat :=
  if targets.shape.length ≤ 1 then 1 else targets.shape.headD 0

/-- Row length of the target tensor once viewed as 2-D. -/
def viewedRowLen (targets : ITensor) : Nat :=
  if targets.shape.length ≤ 1 then targets.data.length else targets.shape.getD 1 0

/-- The gather described by the claim, at one input: select the target row,
expand it across the input's batch dimension and gather the logits at those
indices along the last axis. -/
def gatherAtRow (tdata : List Nat) (rows rowLen : Nat) (i : Nat) (lg : QTensor) :
    QTensor :=
  let r : Nat := if 1 < rows then i else 0
  let row := (tdata.drop (r * rowLen)).take rowLen
  let b := lg.shape.headD 0
  let c := lg.shape.getD 1 0
  ⟨[b, rowLen],
   (List.range (b * rowLen)).map
     (fun idx => lg.data.getD ((idx / rowLen) * c + row.getD (idx % rowLen) 0) 0)⟩

/-- Definition following the claim's words: the `i`-th input is paired with
target row `i` when the viewed-as-2-D target tensor has more than one row and
with row `0` otherwise, and each result gathers the logits at that row's
indices along the last axis, expanded across the input's batch dimension. -/
def targetedLogitsClaimed (logitsList : List QTensor) (targets : ITensor) :
    List QTensor :=
  logitsList.mapIdx
    (fun i lg => gatherAtRow targets.data (viewedRows targets) (viewedRowLen targets) i lg)

lemma gatherTargetedLoop_spec (t2 : ITensor) (lst : List QTensor) :
    ∀ i : Nat,
    (∀ k, k < lst.length →
      (if 1 < t2.shape.headD 0 then i + k else 0) < t2.shape.headD 0) →
    (∀ x ∈ t2.data, ∀ lg ∈ lst, x < lg.shape.getD 1 0) →
    gatherTargetedLoop t2 i lst =
      .ok (lst.mapIdx
        (fun k lg => gatherAtRow t2.data (t2.shape.headD 0) (t2.shape.getD 1 0) (i + k) lg)) := by
  induction lst with
  | nil => intro i _ _; rfl
  | cons lg rest ih =>
      intro i hrow hcls
      have hr0 : (if 1 < t2.shape.headD 0 then i else 0) < t2.shape.headD 0 := by
        have := hrow 0 (by simp)
        simpa using this
      have hone : gatherTargetedOne t2 i lg =
          .ok (gatherAtRow t2.data (t2.shape.headD 0) (t2.shape.getD 1 0) i lg) := by
        have hall :
            (((t2.data.drop ((if 1 < t2.shape.headD 0 then i else 0) * t2.shape.getD 1 0)).take
                (t2.shape.getD 1 0)).all (· < lg.shape.getD 1 0)) = true := by
          rw [List.all_eq_true]
          intro x hx
          have hmem : x ∈ t2.data :=
            List.mem_of_mem_drop (List.mem_of_mem_take hx)
          simpa using hcls x hmem lg (List.mem_cons_self lg rest)
        simp only [gatherTargetedOne, gatherAtRow, if_pos hr0, hall, if_true]
      have hrest := ih (i + 1)
        (fun k hk => by
          have := hrow (k + 1) (by simpa using Nat.succ_lt_succ hk)
          rwa [show i + (k + 1) = i + 1 + k by omega] at this)
        (fun x hx lg' hlg' => hcls x hx lg' (List.mem_cons_of_mem lg hlg'))
      have hfun : (fun k lg' => gatherAtRow t2.data (t2.shape.headD 0) (t2.shape.getD 1 0)
            (i + 1 + k) lg') =
          (fun k lg' => gatherAtRow t2.data (t2.shape.headD 0) (t2.shape.getD 1 0)
            (i + (k + 1)) lg') := by
        funext k lg'
        rw [show i + 1 + k = i + (k + 1) by omega]
      rw [hfun] at hrest
      simp only [gatherTargetedLoop, hone, exceptBind_ok, hrest, List.mapIdx_cons,
        Nat.add_zero]

/-- **C10.** For well-formed inputs (targets of at most 2 dimensions, enough
target rows, and every target index within each input's class axis),
`_get_targeted_logits_from_iterable` pairs the `i`-th input with target row
`i` when the viewed-as-2-D targets tensor has more than one row, and pairs
every input with target row 0 when targets is 0-D, 1-D or 2-D with one row;
each yielded result gathers the logits at those target indices along the last
axis, expanded across that input's batch dimension. -/
theorem getTargetedLogits_pairs_rows (logitsList : List QTensor) (targets : ITensor)
    (hrow : ∀ i, i < logitsList.length →
      (if 1 < viewedRows targets then i else 0) < viewedRows targets)
    (hcls : ∀ x ∈ targets.data, ∀ lg ∈ logitsList, x < lg.shape.getD 1 0) :
    getTargetedLogitsFromIterable logitsList targets =
      .ok (targetedLogitsClaimed logitsList targets) := by
  by_cases hdim : targets.shape.length ≤ 1
  · have h := gatherTargetedLoop_spec ⟨[1, targets.data.length], targets.data⟩ logitsList 0
      (by intro k hk; simp)
      (by intro x hx lg hlg; exact hcls x hx lg hlg)
    simp only [getTargetedLogitsFromIterable, if_pos hdim, h,
      targetedLogitsClaimed, viewedRows, viewedRowLen, hdim, if_true]
    simp [Nat.zero_add]
  · have h := gatherTargetedLoop_spec targets logitsList 0
      (by
        intro k hk
        have := hrow k hk
        simpa [viewedRows, hdim] using this)
      (by intro x hx lg hlg; exact hcls x hx lg hlg)
    simp only [getTargetedLogitsFromIterable, if_neg hdim, h,
      targetedLogitsClaimed, viewedRows, viewedRowLen, hdim, if_false]
    simp only [Nat.zero_add]

/-- Witness for C10: two inputs against a two-row target tensor — input 0 is
paired with row 0 and input 1 with row 1. -/
theorem getTargetedLogits_pairs_rows_witness :
    getTargetedLogitsFromIterable
        [⟨[1, 3], [10, 11, 12]⟩, ⟨[1, 3], [20, 21, 22]⟩] ⟨[2, 1], [2, 0]⟩ =
      .ok [⟨[1, 1], [12]⟩, ⟨[1, 1], [20]⟩] := by
  have h := getTargetedLogits_pairs_rows
    [⟨[1, 3], [10, 11, 12]⟩, ⟨[1, 3], [20, 21, 22]⟩] ⟨[2, 1], [2, 0]⟩
    (by decide) (by decide)
  exact h

/-! ## `linear_interpolation_perturbation.py`

`LinearInterpolationPerturbation.adjust_baseline` and `.perturb`.  Torch
dtypes are an enumerated tag; floats are exact rationals. -/

/-- A torch dtype tag (only equality of dtypes matters to the code). -/
inductive DType where
  | float32
  | float64
  | int64
deriving DecidableEq, Repr

/-- A torch tensor: shape, dtype and flat row-major data. -/
structure DTensor where
  shape : List Nat
  dtype : DType
  data : List ℚ
deriving DecidableEq, Repr

/-- The `baseline` argument (`TensorBaseline`): `None`, a numeric scalar, a
tensor, or an unsupported value such as a string. -/
inductive TensorBaseline where
  | none
  | num (q : ℚ)
  | tensor (t : DTensor)
  | str (s : String)

/-- `LinearInterpolationPerturbation.adjust_baseline`:

```python
input_shape = inputs.shape[1:]
if baseline is None:
    baseline = 0
if isinstance(baseline, (int, float)):
    baseline = torch.full(input_shape, baseline, dtype=inputs.dtype, ...)
elif isinstance(baseline, torch.Tensor):
    if baseline.shape != input_shape:
        raise ValueError(...)
    if baseline.dtype != inputs.dtype:
        raise ValueError(...)
else:
    raise TypeError(...)
return baseline
```

(`inputs` is a tensor by construction here, so the initial
`isinstance(inputs, torch.Tensor)` guard always passes.) -/
def adjust_baseline (baseline : TensorBaseline) (inputs : DTensor) :
    Except PyErr DTensor :=
  let input_shape := inputs.shape.drop 1
  match baseline with
  | .none =>
      -- baseline = 0, then the int/float branch: torch.full(input_shape, 0)
      .ok ⟨input_shape, inputs.dtype, List.replicate input_shape.prod 0⟩
  | .num q => .ok ⟨input_shape, inputs.dtype, List.replicate input_shape.prod q⟩
  | .tensor t =>
      if t.shape ≠ input_shape then .error .valueErrorShape
      else if t.dtype ≠ inputs.dtype then .error .valueErrorDtype
      else .ok t
  | .str _ => .error .typeError

/-- `torch.linspace(0, 1, steps)`: `steps` evenly spaced points from 0 to 1
(a single `0.0` when `steps = 1`). -/
def linspace01 (steps : Nat) : List ℚ :=
  if steps = 1 then [0]
  else (List.range steps).map (fun k : Nat => (k : ℚ) / ((steps : ℚ) - 1))

/-- `LinearInterpolationPerturbation.perturb`:

```python
baseline = self.adjust_baseline(self.baseline, inputs)
assert inputs.shape[1:] == baseline.shape
alphas = torch.linspace(0, 1, n_samples, ...).view(1, n_samples, *([1] * (inputs.dim() - 1)))
inputs = inputs.unsqueeze(1)
baseline = baseline.to(inputs.device).view(1, 1, *baseline.shape)
interpolated = (1 - alphas) * inputs + alphas * baseline
return interpolated, None
```

The broadcast arithmetic produces a tensor of shape
`(batch, n_samples, *input_shape)` whose entry at `(bi, k, j)` (with `j` the
flat offset inside one non-batch slice) is
`(1 - alphas[k]) * inputs[bi][j] + alphas[k] * baseline[j]`; the flat
row-major data is written out accordingly. -/
def perturbLinear (baseline : TensorBaseline) (inputs : DTensor) (n_samples : Nat) :
    Except PyErr (DTensor × Option QTensor) := do
  let b ← adjust_baseline baseline inputs
  if inputs.shape.drop 1 = b.shape then
    let batch := inputs.shape.headD 0
    let restProd := (inputs.shape.drop 1).prod
    let alphas := linspace01 n_samples
    Except.ok (⟨batch :: n_samples :: inputs.shape.drop 1, inputs.dtype,
      (List.range (batch * n_samples * restProd)).map (fun idx =>
        let bi := idx / (n_samples * restProd)
        let r := idx % (n_samples * restProd)
        let k := r / restProd
        let j := r % restProd
        let a := alphas.getD k 0
        (1 - a) * inputs.data.getD (bi * restProd + j) 0 + a * b.data.getD j 0)⟩,
      Option.none)
  else Except.error .assertionError

/-- **C6.** `adjust_baseline` fails with a `TypeError` on a string baseline;
with a `ValueError` from the shape check on a tensor baseline whose shape
differs from the input's non-batch shape; with a `ValueError` from the dtype
check on a matching-shape tensor baseline whose dtype differs from the
input's; and otherwise returns a baseline tensor of shape `inputs.shape[1:]`
— zeros for `None`, a constant tensor for a numeric scalar, the tensor itself
for a matching tensor. -/
theorem adjust_baseline_cases (inputs : DTensor) :
    (∀ s, adjust_baseline (.str s) inputs = .error .typeError) ∧
    (∀ t, t.shape ≠ inputs.shape.drop 1 →
      adjust_baseline (.tensor t) inputs = .error .valueErrorShape) ∧
    (∀ t, t.shape = inputs.shape.drop 1 → t.dtype ≠ inputs.dtype →
      adjust_baseline (.tensor t) inputs = .error .valueErrorDtype) ∧
    (adjust_baseline .none inputs =
      .ok ⟨inputs.shape.drop 1, inputs.dtype,
           List.replicate (inputs.shape.drop 1).prod 0⟩) ∧
    (∀ q, adjust_baseline (.num q) inputs =
      .ok ⟨inputs.shape.drop 1, inputs.dtype,
           List.replicate (inputs.shape.drop 1).prod q⟩) ∧
    (∀ t, t.shape = inputs.shape.drop 1 → t.dtype = inputs.dtype →
      adjust_baseline (.tensor t) inputs = .ok t) := by
  refine ⟨fun s => rfl, ?_, ?_, rfl, fun q => rfl, ?_⟩
  · intro t ht
    simp only [adjust_baseline]
    rw [if_pos ht]
  · intro t ht hd
    simp only [adjust_baseline]
    rw [if_neg (fun h => h ht), if_pos hd]
  · intro t ht hd
    simp only [adjust_baseline]
    rw [if_neg (fun h => h ht), if_neg (fun h => h hd)]

/-- Witness for C6: concrete instances of the string, shape-mismatch,
dtype-mismatch and valid-tensor cases. -/
theorem adjust_baseline_cases_witness :
    adjust_baseline (.str "invalid") ⟨[4, 3], .float32, List.replicate 12 0⟩ =
      .error .typeError ∧
    adjust_baseline (.tensor ⟨[2], .float32, [0, 0]⟩)
        ⟨[4, 3], .float32, List.replicate 12 0⟩ = .error .valueErrorShape ∧
    adjust_baseline (.tensor ⟨[3], .float64, [0, 0, 0]⟩)
        ⟨[4, 3], .float32, List.replicate 12 0⟩ = .error .valueErrorDtype ∧
    adjust_baseline (.tensor ⟨[3], .float32, [1, 2, 3]⟩)
        ⟨[4, 3], .float32, List.replicate 12 0⟩ =
      .ok ⟨[3], .float32, [1, 2, 3]⟩ := by
  refine ⟨(adjust_baseline_cases _).1 "invalid", ?_, ?_, ?_⟩
  · exact (adjust_baseline_cases _).2.1 ⟨[2], .float32, [0, 0]⟩ (by decide)
  · exact (adjust_baseline_cases _).2.2.1 ⟨[3], .float64, [0, 0, 0]⟩ rfl (by decide)
  · exact (adjust_baseline_cases _).2.2.2.2.2 ⟨[3], .float32, [1, 2, 3]⟩ rfl rfl

/-- A baseline accepted by `adjust_baseline`: `None`, a numeric scalar, or a
tensor matching the input's non-batch shape and dtype. -/
def validBaseline (b : TensorBaseline) (inputs : DTensor) : Prop :=
  match b with
  | .none => True
  | .num _ => True
  | .tensor t => t.shape = inputs.shape.drop 1 ∧ t.dtype = inputs.dtype
  | .str _ => False

/-- Reading a mapped range at an in-range index. -/
lemma getD_range_map (M : Nat) (g : Nat → ℚ) (idx : Nat) (h : idx < M) :
    ((List.range M).map g).getD idx 0 = g idx := by
  rw [List.getD_eq_getElem?_getD, List.getElem?_map, List.getElem?_range h]
  rfl

/-- `torch.linspace(0, 1, n)[k] = k / (n - 1)` for `n ≥ 2`. -/
lemma linspace01_getD (n k : Nat) (hn : 2 ≤ n) (hk : k < n) :
    (linspace01 n).getD k 0 = (k : ℚ) / ((n : ℚ) - 1) := by
  rw [linspace01, if_neg (by omega)]
  exact getD_range_map n _ k hk

/-- Decomposition of the flat row-major index `(bi, k, j)`. -/
lemma flatIndex_decomp (bi k j n rp : Nat) (hk : k < n) (hj : j < rp) :
    ((bi * n + k) * rp + j) / (n * rp) = bi ∧
    ((bi * n + k) * rp + j) % (n * rp) = k * rp + j ∧
    (k * rp + j) / rp = k ∧
    (k * rp + j) % rp = j := by
  have hpos : 0 < n * rp := Nat.mul_pos (by omega) (by omega)
  have hlt : k * rp + j < n * rp := by
    calc k * rp + j < k * rp + rp := by omega
    _ = (k + 1) * rp := by ring
    _ ≤ n * rp := Nat.mul_le_mul_right rp (by omega)
  have hrw : (bi * n + k) * rp + j = n * rp * bi + (k * rp + j) := by ring
  refine ⟨?_, ?_, ?_, ?_⟩
  · rw [hrw, Nat.mul_add_div hpos, Nat.div_eq_of_lt hlt, Nat.add_zero]
  · rw [show (bi * n + k) * rp + j = (k * rp + j) + (n * rp) * bi by ring,
      Nat.add_mul_mod_self_left, Nat.mod_eq_of_lt hlt]
  · rw [show k * rp + j = rp * k + j by ring, Nat.mul_add_div (by omega),
      Nat.div_eq_of_lt hj, Nat.add_zero]
  · rw [show k * rp + j = j + rp * k by ring, Nat.add_mul_mod_self_left,
      Nat.mod_eq_of_lt hj]

/-- **C5.** For every input tensor, every valid baseline and every
`n_samples ≥ 2`, `LinearInterpolationPerturbation.perturb` succeeds, returns
no mask (second component `None`), has output shape
`(batch, n_samples, *input_shape)`, and its variant `k` at batch index `bi`
equals `(1 - α_k) * input + α_k * adjusted-baseline` entrywise with
`α_k = k / (n_samples - 1)` — so variant `0` equals the original input and the
last variant equals the adjusted baseline. -/
theorem linearInterpolation_endpoints (baseline : TensorBaseline) (inputs : DTensor)
    (n : Nat) (hn : 2 ≤ n) (hv : validBaseline baseline inputs) :
    ∃ badj : DTensor,
      adjust_baseline baseline inputs = .ok badj ∧
      ∃ out : DTensor,
        perturbLinear baseline inputs n = .ok (out, Option.none) ∧
        out.shape = inputs.shape.headD 0 :: n :: inputs.shape.drop 1 ∧
        (∀ bi k j : Nat, bi < inputs.shape.headD 0 → k < n →
            j < (inputs.shape.drop 1).prod →
          out.data.getD ((bi * n + k) * (inputs.shape.drop 1).prod + j) 0 =
            (1 - (k : ℚ) / ((n : ℚ) - 1)) *
                inputs.data.getD (bi * (inputs.shape.drop 1).prod + j) 0 +
              (k : ℚ) / ((n : ℚ) - 1) * badj.data.getD j 0) ∧
        (∀ bi j : Nat, bi < inputs.shape.headD 0 → j < (inputs.shape.drop 1).prod →
          out.data.getD (bi * n * (inputs.shape.drop 1).prod + j) 0 =
            inputs.data.getD (bi * (inputs.shape.drop 1).prod + j) 0) ∧
        (∀ bi j : Nat, bi < inputs.shape.headD 0 → j < (inputs.shape.drop 1).prod →
          out.data.getD ((bi * n + (n - 1)) * (inputs.shape.drop 1).prod + j) 0 =
            badj.data.getD j 0) := by
  have hadj : ∃ badj : DTensor, adjust_baseline baseline inputs = .ok badj ∧
      badj.shape = inputs.shape.drop 1 := by
    cases baseline with
    | none => exact ⟨_, rfl, rfl⟩
    | num q => exact ⟨_, rfl, rfl⟩
    | tensor t =>
        obtain ⟨h1, h2⟩ := hv
        refine ⟨t, ?_, h1⟩
        simp only [adjust_baseline]
        rw [if_neg (fun h => h h1), if_neg (fun h => h h2)]
    | str s => exact absurd hv (by simp [validBaseline])
  obtain ⟨badj, hok, hsh⟩ := hadj
  refine ⟨badj, hok, ?_⟩
  refine ⟨⟨inputs.shape.headD 0 :: n :: inputs.shape.drop 1, inputs.dtype,
    (List.range (inputs.shape.headD 0 * n * (inputs.shape.drop 1).prod)).map (fun idx =>
      let bi := idx / (n * (inputs.shape.drop 1).prod)
      let r := idx % (n * (inputs.shape.drop 1).prod)
      let k := r / (inputs.shape.drop 1).prod
      let j := r % (inputs.shape.drop 1).prod
      let a := (linspace01 n).getD k 0
      (1 - a) * inputs.data.getD (bi * (inputs.shape.drop 1).prod + j) 0 +
        a * badj.data.getD j 0)⟩, ?_, rfl, ?_, ?_, ?_⟩
  · simp only [perturbLinear, hok, exceptBind_ok]
    rw [if_pos hsh.symm]
  · intro bi k j hbi hk hj
    have h1 : bi * n + k + 1 ≤ inputs.shape.headD 0 * n := by
      calc bi * n + k + 1 ≤ bi * n + n := by omega
      _ = (bi + 1) * n := by ring
      _ ≤ inputs.shape.headD 0 * n := Nat.mul_le_mul_right n (by omega)
    have hidx : (bi * n + k) * (inputs.shape.drop 1).prod + j <
        inputs.shape.headD 0 * n * (inputs.shape.drop 1).prod := by
      calc (bi * n + k) * (inputs.shape.drop 1).prod + j
          < (bi * n + k) * (inputs.shape.drop 1).prod + (inputs.shape.drop 1).prod := by
            omega
      _ = (bi * n + k + 1) * (inputs.shape.drop 1).prod := by ring
      _ ≤ inputs.shape.headD 0 * n * (inputs.shape.drop 1).prod :=
            Nat.mul_le_mul_right _ h1
    obtain ⟨hd1, hm1, hd2, hm2⟩ := flatIndex_decomp bi k j n (inputs.shape.drop 1).prod hk hj
    rw [getD_range_map _ _ _ hidx]
    simp only [hd1, hm1, hd2, hm2, linspace01_getD n k hn hk]
  · intro bi j hbi hj
    have h1 : bi * n + 0 + 1 ≤ inputs.shape.headD 0 * n := by
      calc bi * n + 0 + 1 ≤ bi * n + n := by omega
      _ = (bi + 1) * n := by ring
      _ ≤ inputs.shape.headD 0 * n := Nat.mul_le_mul_right n (by omega)
    have hidx : (bi * n + 0) * (inputs.shape.drop 1).prod + j <
        inputs.shape.headD 0 * n * (inputs.shape.drop 1).prod := by
      calc (bi * n + 0) * (inputs.shape.drop 1).prod + j
          < (bi * n + 0) * (inputs.shape.drop 1).prod + (inputs.shape.drop 1).prod := by
            omega
      _ = (bi * n + 0 + 1) * (inputs.shape.drop 1).prod := by ring
      _ ≤ inputs.shape.headD 0 * n * (inputs.shape.drop 1).prod :=
            Nat.mul_le_mul_right _ h1
    obtain ⟨hd1, hm1, hd2, hm2⟩ :=
      flatIndex_decomp bi 0 j n (inputs.shape.drop 1).prod (by omega) hj
    rw [show bi * n * (inputs.shape.drop 1).prod + j =
      (bi * n + 0) * (inputs.shape.drop 1).prod + j by ring]
    rw [getD_range_map _ _ _ hidx]
    simp only [hd1, hm1, hd2, hm2, linspace01_getD n 0 hn (by omega)]
    push_cast
    ring
  · intro bi j hbi hj
    have hkn : n - 1 < n := by omega
    have h1 : bi * n + (n - 1) + 1 ≤ inputs.shape.headD 0 * n := by
      calc bi * n + (n - 1) + 1 ≤ bi * n + n := by omega
      _ = (bi + 1) * n := by ring
      _ ≤ inputs.shape.headD 0 * n := Nat.mul_le_mul_right n (by omega)
    have hidx : (bi * n + (n - 1)) * (inputs.shape.drop 1).prod + j <
        inputs.shape.headD 0 * n * (inputs.shape.drop 1).prod := by
      calc (bi * n + (n - 1)) * (inputs.shape.drop 1).prod + j
          < (bi * n + (n - 1)) * (inputs.shape.drop 1).prod +
              (inputs.shape.drop 1).prod := by omega
      _ = (bi * n + (n - 1) + 1) * (inputs.shape.drop 1).prod := by ring
      _ ≤ inputs.shape.headD 0 * n * (inputs.shape.drop 1).prod :=
            Nat.mul_le_mul_right _ h1
    obtain ⟨hd1, hm1, hd2, hm2⟩ :=
      flatIndex_decomp bi (n - 1) j n (inputs.shape.drop 1).prod hkn hj
    rw [getD_range_map _ _ _ hidx]
    simp only [hd1, hm1, hd2, hm2, linspace01_getD n (n - 1) hn hkn]
    have hne : ((n : ℚ) - 1) ≠ 0 := by
      have h2 : (2 : ℚ) ≤ (n : ℚ) := by exact_mod_cast hn
      intro h
      rw [sub_eq_zero] at h
      rw [h] at h2
      norm_num at h2
    rw [Nat.cast_sub (by omega), Nat.cast_one, div_self hne]
    ring

/-- Witness for C5: input batch `[[3, 5]]`, `None` baseline and two steps —
the theorem applies and its hypotheses hold. -/
theorem linearInterpolation_endpoints_witness :
    2 ≤ 2 ∧
    validBaseline TensorBaseline.none ⟨[1, 2], DType.float32, [3, 5]⟩ ∧
    (∃ badj : DTensor,
      adjust_baseline TensorBaseline.none ⟨[1, 2], DType.float32, [3, 5]⟩ =
        .ok badj ∧
      ∃ out : DTensor,
        perturbLinear TensorBaseline.none ⟨[1, 2], DType.float32, [3, 5]⟩ 2 =
          .ok (out, Option.none) ∧
        out.shape = 1 :: 2 :: [2] ∧
        (∀ bi k j : Nat, bi < 1 → k < 2 → j < 2 →
          out.data.getD ((bi * 2 + k) * 2 + j) 0 =
            (1 - (k : ℚ) / ((2 : ℚ) - 1)) * ([3, 5].getD (bi * 2 + j) 0) +
              (k : ℚ) / ((2 : ℚ) - 1) * badj.data.getD j 0) ∧
        (∀ bi j : Nat, bi < 1 → j < 2 →
          out.data.getD (bi * 2 * 2 + j) 0 = [3, 5].getD (bi * 2 + j) 0) ∧
        (∀ bi j : Nat, bi < 1 → j < 2 →
          out.data.getD ((bi * 2 + (2 - 1)) * 2 + j) 0 = badj.data.getD j 0)) :=
  ⟨le_refl 2, trivial,
   linearInterpolation_endpoints TensorBaseline.none ⟨[1, 2], DType.float32, [3, 5]⟩ 2
     (le_refl 2) trivial⟩

/-! ## `base.py`: `MultitaskExplainerMixin.__new__`

```python
if model.__class__.__name__.endswith("ForSequenceClassification"):
    ... Classification explainer ...
if model.__class__.__name__.endswith("ForCausalLM") or model.__class__.__name__.endswith("LMHeadModel"):
    ... Generation explainer ...
raise NotImplementedError(...)
```

Model class names are modelled as character lists; Python `str.endswith` is
the list-suffix test. -/

/-- The task family of the synthesized explainer. -/
inductive TaskKind where
  | classification
  | generation
deriving DecidableEq, Repr

/-- The dispatch performed by `MultitaskExplainerMixin.__new__` on the wrapped
model's class name. -/
def multitaskDispatch (modelClassName : List Char) : Except PyErr TaskKind :=
  if ("ForSequenceClassification".toList).isSuffixOf modelClassName then
    .ok .classification
  else if ("ForCausalLM".toList).isSuffixOf modelClassName ||
      ("LMHeadModel".toList).isSuffixOf modelClassName then
    .ok .generation
  else .error .notImplementedError

/-- A name ending in one of the generation suffixes cannot also end in
`"ForSequenceClassification"` (neither generation suffix is a suffix of it). -/
lemma not_seqcls_suffix_of_generation (name : List Char)
    (h : ("ForCausalLM".toList).isSuffixOf name = true ∨
         ("LMHeadModel".toList).isSuffixOf name = true) :
    ("ForSequenceClassification".toList).isSuffixOf name = false := by
  rw [← Bool.not_eq_true]
  intro hc
  rw [List.isSuffixOf_iff_suffix] at hc
  rcases h with h | h <;> rw [List.isSuffixOf_iff_suffix] at h
  · exact absurd (List.suffix_of_suffix_length_le h hc (by decide)) (by decide)
  · exact absurd (List.suffix_of_suffix_length_le h hc (by decide)) (by decide)

/-- **C7.** Constructing a multitask explainer dispatches on the wrapped
model's class name: a name ending in `"ForSequenceClassification"` yields the
classification explainer, one ending in `"ForCausalLM"` or `"LMHeadModel"`
yields the generation explainer, and a name matching neither family fails
with `NotImplementedError`. -/
theorem multitaskDispatch_families (name : List Char) :
    (("ForSequenceClassification".toList).isSuffixOf name = true →
      multitaskDispatch name = .ok .classification) ∧
    (("ForCausalLM".toList).isSuffixOf name = true ∨
        ("LMHeadModel".toList).isSuffixOf name = true →
      multitaskDispatch name = .ok .generation) ∧
    (("ForSequenceClassification".toList).isSuffixOf name = false →
      ("ForCausalLM".toList).isSuffixOf name = false →
      ("LMHeadModel".toList).isSuffixOf name = false →
      multitaskDispatch name = .error .notImplementedError) := by
  refine ⟨?_, ?_, ?_⟩
  · intro h
    simp only [multitaskDispatch]
    rw [if_pos h]
  · intro h
    have hc := not_seqcls_suffix_of_generation name h
    have hcn : ¬ (("ForSequenceClassification".toList).isSuffixOf name = true) := by
      rw [hc]
      exact Bool.false_ne_true
    simp only [multitaskDispatch]
    rw [if_neg hcn, if_pos ((Bool.or_eq_true _ _).mpr h)]
  · intro h1 h2 h3
    have h1n : ¬ (("ForSequenceClassification".toList).isSuffixOf name = true) := by
      rw [h1]
      exact Bool.false_ne_true
    have h2n : ¬ ((("ForCausalLM".toList).isSuffixOf name ||
        ("LMHeadModel".toList).isSuffixOf name) = true) := by
      rw [h2, h3]
      exact Bool.false_ne_true
    simp only [multitaskDispatch]
    rw [if_neg h1n, if_neg h2n]

/-- Witness for C7 on three concrete model class names, one per family plus
an unsupported one. -/
theorem multitaskDispatch_families_witness :
    multitaskDispatch ("BertForSequenceClassification".toList) =
      .ok .classification ∧
    multitaskDispatch ("GPT2LMHeadModel".toList) = .ok .generation ∧
    multitaskDispatch ("LlamaModel".toList) = .error .notImplementedError := by
  refine ⟨?_, ?_, ?_⟩
  · exact (multitaskDispatch_families _).1 (by decide)
  · exact (multitaskDispatch_families _).2.1 (Or.inr (by decide))
  · exact (multitaskDispatch_families _).2.2 (by decide) (by decide) (by decide)

/-! ## `base.py`: `ClassificationAttributionExplainer.process_inputs_to_explain_and_targets`

```python
logits = torch.stack(list(self.inference_wrapper.get_logits(deepcopy(model_inputs))))
if targets is None:
    targets = logits.argmax(dim=-1)
targets = ClassificationInferenceWrapper.process_target(targets, logits.shape[:-1])
return model_inputs, targets
```

`get_logits` and `process_target` live in the inference-wrapper module, which
is not under `src/`; both are modelled from the spec below.  The standardized
inputs are one sample each, so each `get_logits` row has batch 1 and the
stacked logits have shape `(n, 1, c)`; `argmax(dim=-1)` on them yields shape
`(n, 1)`. -/

/-- `torch.argmax` over a row: index of the first maximal entry. -/
def torchArgmax (l : List ℚ) : Nat :=
  (List.range l.length).foldl
    (fun best i => if l.getD best 0 < l.getD i 0 then i else best) 0

/-- Modelled from the spec: `InferenceWrapper.get_logits` (defined in
`inference_wrapper.py`, not under `src/`) runs the model forward on each
standardized input and yields one logits row per input; the model forward is
the opaque collaborator `f`. -/
def get_logits {I : Type} (f : I → List ℚ) (model_inputs : List I) :
    List (List ℚ) :=
  model_inputs.map f

/-- Modelled from the spec: `ClassificationInferenceWrapper.process_target`
(not under `src/`) broadcast-normalizes a target tensor against the batch
shape: a 0-D target is promoted to 1-D and repeated across the batch, a 1-D
target is repeated across the batch, a target with leading dimension 1 is
repeated across the batch, a target whose leading dimension equals the batch
is left unchanged, and any other leading-dimension mismatch fails with a
dimensionality error. -/
def process_target_spec (target : ITensor) (batchShape : List Nat) :
    Except PyErr ITensor :=
  match target.shape with
  | [] =>
      .ok ⟨batchShape ++ [1], (List.replicate batchShape.prod target.data).flatten⟩
  | [t] =>
      .ok ⟨batchShape ++ [t], (List.replicate batchShape.prod target.data).flatten⟩
  | n :: rest =>
      if n = 1 then
        .ok ⟨batchShape.headD 0 :: rest,
             (List.replicate (batchShape.headD 0) target.data).flatten⟩
      else if n = batchShape.headD 0 then .ok target
      else .error .valueError

/-- `ClassificationAttributionExplainer.process_inputs_to_explain_and_targets`. -/
def process_inputs_to_explain_and_targets {I : Type} (f : I → List ℚ)
    (model_inputs : List I) (targets : Option ITensor) :
    Except PyErr (List I × ITensor) := do
  let logits := get_logits f model_inputs
  let tgt : ITensor :=
    match targets with
    | some t => t
    | none => ⟨[model_inputs.length, 1], logits.map torchArgmax⟩
  let t2 ← process_target_spec tgt [model_inputs.length, 1]
  Except.ok (model_inputs, t2)

/-- **C8.** For every classification explain call with `targets=None`, the
targets used for scoring are the argmax over the model's predicted logits for
each standardized input, and the standardized model inputs are returned
unchanged alongside them. -/
theorem classification_auto_targets {I : Type} (f : I → List ℚ)
    (model_inputs : List I) :
    process_inputs_to_explain_and_targets f model_inputs Option.none =
      .ok (model_inputs,
           ⟨[model_inputs.length, 1], (get_logits f model_inputs).map torchArgmax⟩) := by
  simp only [process_inputs_to_explain_and_targets, process_target_spec]
  by_cases h1 : model_inputs.length = 1
  · simp [h1, get_logits, exceptBind_ok]
  · simp [h1, get_logits, exceptBind_ok]

/-! ## `sobol_attribution.py`: `[REPLACE]`-token registration

```python
replace_token = "[REPLACE]"
if replace_token not in tokenizer.get_vocab():
    tokenizer.add_tokens([replace_token])
    model.resize_token_embeddings(len(tokenizer))
```

The tokenizer and model are external collaborators; per the spec they expose
a mutable vocabulary (`add_tokens` appends a genuinely new token,
`len(tokenizer)` is the vocabulary size) and a resizable embedding table
(`resize_token_embeddings(k)` sets the table's row count to `k`). -/

/-- Tokenizer collaborator state: its vocabulary. -/
structure TokenizerState where
  vocab : List String
deriving DecidableEq, Repr

/-- Model collaborator state: the embedding table's row count. -/
structure ModelState where
  embedRows : Nat
deriving DecidableEq, Repr

/-- The `[REPLACE]`-token registration performed by
`SobolAttribution.__init__`. -/
def registerReplaceToken (tok : TokenizerState) (mdl : ModelState) :
    TokenizerState × ModelState :=
  if "[REPLACE]" ∈ tok.vocab then (tok, mdl)
  else
    let tok' : TokenizerState := ⟨tok.vocab ++ ["[REPLACE]"]⟩
    (tok', ⟨tok'.vocab.length⟩)

/-- **C9.** Constructing a `SobolAttribution` adds `"[REPLACE]"` and resizes
the model's embedding table only when the token is not already in the
vocabulary; when it is already present, tokenizer and model are left
untouched — so running the registration a second time (a second
`SobolAttribution` on the same tokenizer and model) changes nothing. -/
theorem registerReplaceToken_idempotent (tok : TokenizerState) (mdl : ModelState) :
    ("[REPLACE]" ∉ tok.vocab →
      registerReplaceToken tok mdl =
        (⟨tok.vocab ++ ["[REPLACE]"]⟩, ⟨tok.vocab.length + 1⟩)) ∧
    ("[REPLACE]" ∈ tok.vocab → registerReplaceToken tok mdl = (tok, mdl)) ∧
    (registerReplaceToken (registerReplaceToken tok mdl).1
        (registerReplaceToken tok mdl).2 =
      registerReplaceToken tok mdl) := by
  refine ⟨?_, ?_, ?_⟩
  · intro h
    simp [registerReplaceToken, h]
  · intro h
    simp [registerReplaceToken, h]
  · by_cases h : "[REPLACE]" ∈ tok.vocab
    · simp [registerReplaceToken, h]
    · have hmem : "[REPLACE]" ∈ tok.vocab ++ ["[REPLACE]"] := by simp
      simp [registerReplaceToken, h, hmem]

/-- Witness for C9: registration on a vocabulary without `"[REPLACE]"` adds
one row; running it again changes nothing. -/
theorem registerReplaceToken_idempotent_witness :
    registerReplaceToken ⟨["hello", "world"]⟩ ⟨2⟩ =
      (⟨["hello", "world", "[REPLACE]"]⟩, ⟨3⟩) ∧
    registerReplaceToken ⟨["hello", "world", "[REPLACE]"]⟩ ⟨3⟩ =
      (⟨["hello", "world", "[REPLACE]"]⟩, ⟨3⟩) := by
  constructor
  · exact (registerReplaceToken_idempotent ⟨["hello", "world"]⟩ ⟨2⟩).1 (by decide)
  · exact (registerReplaceToken_idempotent ⟨["hello", "world", "[REPLACE]"]⟩ ⟨3⟩).2.1
      (by decide)

end Interpreto
